import Mathlib

/- Verification development for the Neighborhood Toolkit client (src/App.js):
a shallow embedding of the Firestore-backed data model and of the pure logic
of the item-sharing lifecycle (profile bootstrap, item browsing, borrow
requests, approve / decline / return transitions, borrow-history ordering),
together with theorems about its invariants and functional behaviour.
Document identifiers are modelled as Nat (items, requests) or String
(auto-generated profile document ids); timestamps as Nat seconds wrapped in
Option (serverTimestamp values may be absent on a fresh snapshot, which the
code guards with requestedAt?.seconds and a 0 fallback). -/

namespace Neighborhood

/-- Item status field, values taken from src/App.js line 247:
available | borrowed. -/
inductive ItemStatus
  | available
  | borrowed
deriving DecidableEq, Repr

/-- Request status field, values taken from src/App.js line 305:
pending | approved | declined | returned. -/
inductive ReqStatus
  | pending
  | approved
  | declined
  | returned
deriving DecidableEq, Repr

/-- An item document, fields as written by AddItemModal.handleSubmit
(src/App.js lines 240-249) plus the document id assigned by addDoc.
imageUrl is optional in the UI; createdAt is a server timestamp. -/
structure Item where
  id : Nat
  name : String
  description : String
  imageUrl : Option String
  terms : String
  ownerId : String
  ownerName : String
  status : ItemStatus
  createdAt : Option Nat
deriving DecidableEq, Repr

/-- A borrow-request document, fields as written by BorrowModal.handleSubmit
(src/App.js lines 295-309) plus the document id assigned by addDoc. -/
structure Request where
  id : Nat
  itemId : Nat
  itemName : String
  itemImageUrl : String
  ownerId : String
  borrowerId : String
  borrowerName : String
  borrowDate : String
  returnDate : String
  message : String
  status : ReqStatus
  requestedAt : Option Nat
  conditionCheckIn : String
  conditionCheckOut : String
deriving DecidableEq, Repr

/-- The shared per-neighborhood portion of the document store: the items
collection and the requests collection. List order is irrelevant to the
client (every view re-sorts or re-filters), so addDoc is modelled as cons. -/
structure Store where
  items : List Item
  requests : List Request
deriving DecidableEq, Repr

/-- The empty store. -/
def store0 : Store := ⟨[], []⟩

/-- Model of updateDoc(requestRef, with a status field) for the request with
the given document id: only the status field of that document changes. -/
def setReqStatus (l : List Request) (rid : Nat) (st : ReqStatus) : List Request :=
  l.map (fun r => if r.id = rid then { r with status := st } else r)

/-- Model of updateDoc(itemRef, with a status field) for the item with the
given document id: only the status field of that document changes. -/
def setItemStatus (l : List Item) (iid : Nat) (st : ItemStatus) : List Item :=
  l.map (fun it => if it.id = iid then { it with status := st } else it)

/-- Model of getDoc on a request document reference: look the document up by
its id. -/
def getRequest (s : Store) (rid : Nat) : Option Request :=
  s.requests.find? (fun r => decide (r.id = rid))

/-- Look an item document up by its id. -/
def getItem (s : Store) (iid : Nat) : Option Item :=
  s.items.find? (fun it => decide (it.id = iid))

/-- The status of the request with the given id, when it exists. -/
def statusOf (s : Store) (rid : Nat) : Option ReqStatus :=
  (getRequest s rid).map Request.status

/-- A single Firestore write issued by the lifecycle handlers: every write in
MyItems.handleAction and MyBorrows.handleReturn is an updateDoc of exactly
one status field, either of a request or of an item. -/
inductive Write
  | reqStatus (rid : Nat) (st : ReqStatus)
  | itemStatus (iid : Nat) (st : ItemStatus)
deriving DecidableEq, Repr

/-- Apply one write to the store. -/
def applyWrite (s : Store) : Write → Store
  | .reqStatus rid st => { s with requests := setReqStatus s.requests rid st }
  | .itemStatus iid st => { s with items := setItemStatus s.items iid st }

/-- The sequence of writes issued by MyItems.handleAction (src/App.js lines
379-390): first updateDoc sets the request status to newStatus; then, only
when newStatus is approved, the request is read back with getDoc and a second
updateDoc sets the referenced item status to borrowed. The none branch is
unreachable when the request exists (and in Firestore the first updateDoc
would already have rejected on a missing document). -/
def handleActionWrites (s : Store) (requestId : Nat) (newStatus : ReqStatus) : List Write :=
  if newStatus = .approved then
    match getRequest (applyWrite s (.reqStatus requestId newStatus)) requestId with
    | some requestData =>
        [.reqStatus requestId newStatus, .itemStatus requestData.itemId .borrowed]
    | none => [.reqStatus requestId newStatus]
  else [.reqStatus requestId newStatus]

/-- MyItems.handleAction as a state transformer: its writes applied in order
(the code awaits each updateDoc sequentially). -/
def handleAction (s : Store) (requestId : Nat) (newStatus : ReqStatus) : Store :=
  (handleActionWrites s requestId newStatus).foldl applyWrite s

/-- The sequence of writes issued by MyBorrows.handleReturn (src/App.js lines
481-491): set the request status to returned, then set the item referenced by
the request object (as held by the subscription callback) to available. -/
def handleReturnWrites (request : Request) : List Write :=
  [.reqStatus request.id .returned, .itemStatus request.itemId .available]

/-- MyBorrows.handleReturn as a state transformer. -/
def handleReturn (s : Store) (request : Request) : Store :=
  (handleReturnWrites request).foldl applyWrite s

/-- The client-side filter of the Dashboard browsing view (src/App.js line
192): items with status available whose ownerId differs from the viewing
user. -/
def visibleItems (items : List Item) (uid : String) : List Item :=
  items.filter (fun it => decide (it.status = .available ∧ it.ownerId ≠ uid))

/-- What the Dashboard item area renders: either the empty-state message or
the grid of filtered item cards. -/
inductive DashboardView
  | emptyMessage
  | grid (visible : List Item)
deriving DecidableEq, Repr

/-- The Dashboard item area (src/App.js lines 188-196): the empty-state
message is shown exactly when the raw, unfiltered items list has length 0;
otherwise the grid of the filtered subset is rendered. -/
def renderDashboard (items : List Item) (uid : String) : DashboardView :=
  if items.length = 0 then .emptyMessage
  else .grid (visibleItems items uid)

/-- BorrowModal.handleSubmit (src/App.js lines 286-316): with an empty
borrow or return date (falsy string) nothing is written; otherwise a request
document is created with status pending, denormalizing the item name, the
item image (empty string when absent, matching item.imageUrl or two quotes)
and the owner id from the item record. freshId models the id chosen by
addDoc, now the serverTimestamp. No comparison of the two dates happens on
this path. -/
def borrowSubmit (item : Item) (uid displayName : String)
    (borrowDate returnDate message : String) (freshId : Nat) (now : Nat) :
    Option Request :=
  if borrowDate = "" ∨ returnDate = "" then none
  else some {
    id := freshId
    itemId := item.id
    itemName := item.name
    itemImageUrl := item.imageUrl.getD ""
    ownerId := item.ownerId
    borrowerId := uid
    borrowerName := displayName
    borrowDate := borrowDate
    returnDate := returnDate
    message := message
    status := .pending
    requestedAt := some now
    conditionCheckIn := ""
    conditionCheckOut := "" }

/-- The fixed status precedence of the MyBorrows sort (src/App.js line 470). -/
def statusOrder : ReqStatus → Nat
  | .approved => 1
  | .pending => 2
  | .returned => 3
  | .declined => 4

/-- The timestamp key of the MyBorrows sort: requestedAt?.seconds with a 0
fallback (src/App.js line 474). -/
def tsKey (r : Request) : Nat := r.requestedAt.getD 0

/-- The MyBorrows sort comparator (src/App.js lines 469-475): compare by the
status precedence when it differs, otherwise by descending timestamp. -/
def compareRequests (a b : Request) : Int :=
  if statusOrder a.status ≠ statusOrder b.status then
    (statusOrder a.status : Int) - (statusOrder b.status : Int)
  else
    (tsKey b : Int) - (tsKey a : Int)

/-- The non-strict order induced by the comparator: a precedes-or-ties b. -/
def borrowsLe (a b : Request) : Prop := compareRequests a b ≤ 0

instance : DecidableRel borrowsLe := fun a b => Int.decLe (compareRequests a b) 0

/-- requestsData.sort(comparator) of src/App.js line 469, modelled as a
stable sort with respect to the comparator (JS Array sort is specified to be
stable and to order the array consistently with the comparator). -/
def sortMyBorrows (l : List Request) : List Request :=
  l.insertionSort borrowsLe

/-- The ordering the spec states for the borrow-history view: ascending in
the fixed status precedence, and within equal status descending in the
request timestamp. -/
def specOrder (a b : Request) : Prop :=
  statusOrder a.status < statusOrder b.status ∨
    (statusOrder a.status = statusOrder b.status ∧ tsKey b ≤ tsKey a)

/-- The hard-coded deployment identifier fallback (src/App.js line 29). -/
def appId : String := "neighborhood-toolkit"

/-- A profile document (src/App.js lines 57-61); createdAt omitted as it
plays no role in any claim about the bootstrap. -/
structure Profile where
  displayName : String
  neighborhoodId : String
deriving DecidableEq, Repr

/-- The per-user profile region of the document store: documents keyed by
their full path segments. -/
abbrev ProfileStore : Type := List (List String × Profile)

/-- Model of getDoc at a document path: find the document stored at exactly
that path. -/
def getDocProfile (store : ProfileStore) (path : List String) : Option Profile :=
  (store.find? (fun e => decide (e.1 = path))).map (fun e => e.2)

/-- The path string used both for the getDoc exists-check and for the addDoc
collection in the auth callback (src/App.js lines 54 and 62), split into
segments. -/
def profilePath (uid : String) : List String :=
  ["artifacts", appId, "users", uid, "profile"]

/-- Model of addDoc(collection(db, path), doc): Firestore stores the new
document under a fresh auto-generated id INSIDE the collection at that path,
i.e. at path ++ [freshId], not at the path itself. -/
def addDocProfile (store : ProfileStore) (collectionPath : List String)
    (freshId : String) (p : Profile) : ProfileStore :=
  (collectionPath ++ [freshId], p) :: store

/-- The outcome of one run of the onAuthStateChanged callback. -/
structure SignInResult where
  profile : Profile
  store : ProfileStore
  created : Bool
deriving Repr

/-- The profile bootstrap inside onAuthStateChanged (src/App.js lines 50-76):
getDoc at the profile path; if no document exists there, build a profile with
displayName Neighbor- followed by uid.substring(0, 5) and the hard-coded
default neighborhood west-boone, and addDoc it into the collection at that
same path string. -/
def onAuthSignIn (store : ProfileStore) (uid freshId : String) : SignInResult :=
  match getDocProfile store (profilePath uid) with
  | some p => ⟨p, store, false⟩
  | none =>
      let newProfile : Profile := ⟨"Neighbor-" ++ uid.take 5, "west-boone"⟩
      ⟨newProfile, addDocProfile store (profilePath uid) freshId newProfile, true⟩

/-- The client-invocable operations on the shared store. share carries the
item document AddItemModal writes (with its addDoc-assigned id); request
carries the request document BorrowModal writes; approve and decline are the
two MyItems.handleAction invocations wired to the buttons of src/App.js
lines 437-438; markReturned is the MyBorrows.handleReturn invocation of line
526, identified by the request document id. -/
inductive Op
  | share (it : Item)
  | request (r : Request)
  | approve (rid : Nat)
  | decline (rid : Nat)
  | markReturned (rid : Nat)
deriving DecidableEq, Repr

/-- The guard under which each operation is reachable through the UI:
share requires a non-empty name and description (line 233), an available
status as written (line 247) and a fresh addDoc id; request requires the
fields BorrowModal denormalizes from an existing item (lines 295-309), a
pending status, a fresh id, and the Dashboard filter of line 192 that gated
the Request to Borrow button (item available, not owned by the borrower);
approve and decline require the target request to be pending, since the
buttons render only under req.status equal to pending (line 435);
markReturned requires it to be approved (line 525). -/
def enabled (s : Store) : Op → Bool
  | .share it =>
      decide (it.name ≠ "") && decide (it.description ≠ "") &&
      decide (it.status = .available) &&
      s.items.all (fun j => decide (j.id ≠ it.id))
  | .request r =>
      decide (r.status = .pending) &&
      s.requests.all (fun q => decide (q.id ≠ r.id)) &&
      (match getItem s r.itemId with
       | some it =>
           decide (it.status = .available) && decide (it.ownerId ≠ r.borrowerId) &&
           decide (r.ownerId = it.ownerId) && decide (r.itemName = it.name) &&
           decide (r.itemImageUrl = it.imageUrl.getD "")
       | none => false)
  | .approve rid =>
      match getRequest s rid with
      | some r => decide (r.status = .pending)
      | none => false
  | .decline rid =>
      match getRequest s rid with
      | some r => decide (r.status = .pending)
      | none => false
  | .markReturned rid =>
      match getRequest s rid with
      | some r => decide (r.status = .approved)
      | none => false

/-- The effect of each operation on the store, assuming every write of the
operation succeeds. addDoc is modelled as cons (view order is irrelevant);
the handlers are the write sequences defined above. markReturned passes the
subscribed request object, i.e. the currently stored document. -/
def applyOp (s : Store) : Op → Store
  | .share it => { s with items := it :: s.items }
  | .request r => { s with requests := r :: s.requests }
  | .approve rid => handleAction s rid .approved
  | .decline rid => handleAction s rid .declined
  | .markReturned rid =>
      match getRequest s rid with
      | some r => handleReturn s r
      | none => s

/-- Run a sequence of operations from a state; none when some operation in
the sequence is not client-invocable at its state. -/
def runOps (s : Store) : List Op → Option Store
  | [] => some s
  | op :: ops => if enabled s op then runOps (applyOp s op) ops else none

/-- The guard of the amended C1 claim: identical to enabled except that
approve additionally requires the item referenced by the request to still be
available (equivalently, the owner never approves a second request for an
item already out). This restriction is NOT in the code; it is the minimal
strengthening under which the borrowed-iff-one-approved invariant holds. -/
def enabledStrict (s : Store) (op : Op) : Bool :=
  enabled s op &&
    (match op with
     | .approve rid =>
         (match getRequest s rid with
          | some r =>
              (match getItem s r.itemId with
               | some it => decide (it.status = .available)
               | none => false)
          | none => false)
     | _ => true)

/-- Run a sequence of operations under the strict approve guard. -/
def runOpsStrict (s : Store) : List Op → Option Store
  | [] => some s
  | op :: ops => if enabledStrict s op then runOpsStrict (applyOp s op) ops else none

/-- The number of approved requests referencing a given item id. -/
def countApproved (l : List Request) (iid : Nat) : Nat :=
  (l.filter (fun r => decide (r.itemId = iid ∧ r.status = .approved))).length

/-- The invariant claimed for reachable states: an item is borrowed iff at
least one request referencing it is approved, and a borrowed item has
exactly one approved request. -/
def invC1 (s : Store) : Prop :=
  ∀ it ∈ s.items,
    (it.status = .borrowed ↔ 1 ≤ countApproved s.requests it.id) ∧
    (it.status = .borrowed → countApproved s.requests it.id = 1)

instance (s : Store) : Decidable (invC1 s) := by
  unfold invC1; infer_instance

/-- Forward reachability in the request lifecycle: from pending anything is
ahead, approved can only stay or become returned, declined and returned are
terminal. -/
def fwd : ReqStatus → ReqStatus → Prop
  | .pending, _ => True
  | .approved, st => st = .approved ∨ st = .returned
  | .declined, st => st = .declined
  | .returned, st => st = .returned

instance (a b : ReqStatus) : Decidable (fwd a b) := by
  cases a <;> simp only [fwd] <;> infer_instance

/-- The strengthened inductive invariant for the amended C1: document ids
are unique in each collection, every request references an existing item,
and each item has exactly one approved request when borrowed, none when
available. -/
def good (s : Store) : Prop :=
  (s.requests.map Request.id).Nodup ∧
  (s.items.map Item.id).Nodup ∧
  (∀ r ∈ s.requests, ∃ it ∈ s.items, it.id = r.itemId) ∧
  (∀ it ∈ s.items,
    countApproved s.requests it.id = if it.status = .borrowed then 1 else 0)

/-- A concrete shared item used by counterexamples and witnesses. -/
def drill : Item :=
  { id := 1, name := "Drill", description := "Cordless drill", imageUrl := none,
    terms := "", ownerId := "owner-1", ownerName := "Olive",
    status := .available, createdAt := some 10 }

/-- A concrete pending request by a first borrower for the drill. -/
def reqAlice : Request :=
  { id := 1, itemId := 1, itemName := "Drill", itemImageUrl := "",
    ownerId := "owner-1", borrowerId := "alice", borrowerName := "Alice",
    borrowDate := "2026-01-01", returnDate := "2026-01-02", message := "",
    status := .pending, requestedAt := some 100,
    conditionCheckIn := "", conditionCheckOut := "" }

/-- A concrete pending request by a second borrower for the same drill. -/
def reqBob : Request :=
  { reqAlice with
      id := 2, borrowerId := "bob", borrowerName := "Bob",
      requestedAt := some 200 }

/-- The operation sequence refuting C1 as stated: both requests are made
while the drill is available, the owner approves the first (drill becomes
borrowed), and then approves the second, which the UI still offers because
the request list of MyItems keys the buttons on the request status alone. -/
def c1Ops : List Op :=
  [.share drill, .request reqAlice, .request reqBob, .approve 1, .approve 2]

/-- A well-behaved run used by witnesses: share, one request, one approval. -/
def okOps : List Op := [.share drill, .request reqAlice, .approve 1]

/-- A witness store holding the drill and a pending request for it. -/
def storeW : Store := ⟨[drill], [reqAlice]⟩

/-- The drill while lent out. -/
def borrowedDrill : Item := { drill with status := .borrowed }

/-- The first request once approved. -/
def reqAliceApproved : Request := { reqAlice with status := .approved }

/-- A witness store holding the borrowed drill and its approved request. -/
def storeWB : Store := ⟨[borrowedDrill], [reqAliceApproved]⟩

instance : IsTotal Request borrowsLe :=
  ⟨fun a b => by
    unfold borrowsLe compareRequests
    split <;> split <;> omega⟩

instance : IsTrans Request borrowsLe :=
  ⟨fun a b c => by
    unfold borrowsLe compareRequests
    split <;> split <;> split <;> omega⟩

theorem getRequest_eq (s : Store) (rid : Nat) (r : Request)
    (h : getRequest s rid = some r) : r.id = rid ∧ r ∈ s.requests := by
  refine ⟨?_, List.mem_of_find?_eq_some h⟩
  have := List.find?_some h
  simpa using this

theorem getItem_eq (s : Store) (iid : Nat) (it : Item)
    (h : getItem s iid = some it) : it.id = iid ∧ it ∈ s.items := by
  refine ⟨?_, List.mem_of_find?_eq_some h⟩
  have := List.find?_some h
  simpa using this

theorem setReqStatus_map_id (l : List Request) (rid : Nat) (st : ReqStatus) :
    (setReqStatus l rid st).map Request.id = l.map Request.id := by
  induction l with
  | nil => rfl
  | cons h t ih =>
      show ((if h.id = rid then { h with status := st } else h) ::
        setReqStatus t rid st).map Request.id = _
      simp only [List.map_cons]
      rw [ih]
      congr 1
      split <;> rfl

theorem setItemStatus_map_id (l : List Item) (iid : Nat) (st : ItemStatus) :
    (setItemStatus l iid st).map Item.id = l.map Item.id := by
  induction l with
  | nil => rfl
  | cons h t ih =>
      show ((if h.id = iid then { h with status := st } else h) ::
        setItemStatus t iid st).map Item.id = _
      simp only [List.map_cons]
      rw [ih]
      congr 1
      split <;> rfl

theorem find?_setReqStatus (l : List Request) (rid : Nat) (st : ReqStatus) (rid' : Nat) :
    (setReqStatus l rid st).find? (fun r => decide (r.id = rid')) =
      (l.find? (fun r => decide (r.id = rid'))).map
        (fun r => if r.id = rid then { r with status := st } else r) := by
  induction l with
  | nil => rfl
  | cons h t ih =>
      have hid : (if h.id = rid then { h with status := st } else h).id = h.id := by
        split <;> rfl
      show ((if h.id = rid then { h with status := st } else h) ::
        setReqStatus t rid st).find? (fun r => decide (r.id = rid')) = _
      by_cases hh : h.id = rid'
      · rw [List.find?_cons_of_pos _ (by simpa [hid] using hh),
          List.find?_cons_of_pos _ (by simpa using hh)]
        rfl
      · rw [List.find?_cons_of_neg _ (by simpa [hid] using hh),
          List.find?_cons_of_neg _ (by simpa using hh)]
        exact ih

theorem find?_setItemStatus (l : List Item) (iid : Nat) (st : ItemStatus) (iid' : Nat) :
    (setItemStatus l iid st).find? (fun it => decide (it.id = iid')) =
      (l.find? (fun it => decide (it.id = iid'))).map
        (fun it => if it.id = iid then { it with status := st } else it) := by
  induction l with
  | nil => rfl
  | cons h t ih =>
      have hid : (if h.id = iid then { h with status := st } else h).id = h.id := by
        split <;> rfl
      show ((if h.id = iid then { h with status := st } else h) ::
        setItemStatus t iid st).find? (fun it => decide (it.id = iid')) = _
      by_cases hh : h.id = iid'
      · rw [List.find?_cons_of_pos _ (by simpa [hid] using hh),
          List.find?_cons_of_pos _ (by simpa using hh)]
        rfl
      · rw [List.find?_cons_of_neg _ (by simpa [hid] using hh),
          List.find?_cons_of_neg _ (by simpa using hh)]
        exact ih

theorem setReqStatus_of_absent (l : List Request) (rid : Nat) (st : ReqStatus)
    (h : ∀ r ∈ l, r.id ≠ rid) : setReqStatus l rid st = l := by
  induction l with
  | nil => rfl
  | cons hd t ih =>
      show (if hd.id = rid then { hd with status := st } else hd) ::
        setReqStatus t rid st = _
      rw [if_neg (h hd (List.mem_cons_self hd t)), ih]
      intro r hr
      exact h r (List.mem_cons_of_mem hd hr)

theorem countApproved_cons (r : Request) (l : List Request) (iid : Nat) :
    countApproved (r :: l) iid =
      (if r.itemId = iid ∧ r.status = .approved then 1 else 0) + countApproved l iid := by
  unfold countApproved
  rw [List.filter_cons]
  split <;> rename_i h
  · rw [if_pos (by simpa using h)]
    simp [Nat.add_comm]
  · rw [if_neg (by simpa using h)]
    simp

theorem countApproved_pos (l : List Request) (r : Request) (hm : r ∈ l)
    (hi : r.itemId = iid) (hs : r.status = .approved) : 1 ≤ countApproved l iid := by
  unfold countApproved
  have : r ∈ l.filter (fun q => decide (q.itemId = iid ∧ q.status = .approved)) :=
    List.mem_filter.2 ⟨hm, by simp [hi, hs]⟩
  calc 1 ≤ _ := List.length_pos.2 (List.ne_nil_of_mem this)
    _ = _ := rfl

theorem countApproved_setReqStatus (l : List Request) (rid : Nat) (r : Request)
    (st : ReqStatus) (iid : Nat)
    (hnd : (l.map Request.id).Nodup)
    (hfind : l.find? (fun q => decide (q.id = rid)) = some r) :
    countApproved (setReqStatus l rid st) iid +
        (if r.itemId = iid ∧ r.status = .approved then 1 else 0) =
      countApproved l iid + (if r.itemId = iid ∧ st = .approved then 1 else 0) := by
  induction l with
  | nil => simp at hfind
  | cons h t ih =>
      rw [List.map_cons, List.nodup_cons] at hnd
      have hcons : setReqStatus (h :: t) rid st =
          (if h.id = rid then { h with status := st } else h) :: setReqStatus t rid st := rfl
      by_cases hh : h.id = rid
      · rw [List.find?_cons_of_pos _ (by simpa using hh)] at hfind
        cases hfind
        have habs : ∀ q ∈ t, q.id ≠ rid := by
          intro q hq hqe
          apply hnd.1
          have hqr : q.id = r.id := by rw [hqe, hh]
          exact hqr ▸ List.mem_map_of_mem Request.id hq
        rw [hcons, if_pos hh, setReqStatus_of_absent t rid st habs,
          countApproved_cons, countApproved_cons]
        split <;> split <;> omega
      · rw [List.find?_cons_of_neg _ (by simpa using hh)] at hfind
        rw [hcons, if_neg hh, countApproved_cons, countApproved_cons]
        have := ih hnd.2 hfind
        omega

theorem getRequest_applyWrite_req (s : Store) (rid : Nat) (st : ReqStatus) (rid' : Nat) :
    getRequest (applyWrite s (.reqStatus rid st)) rid' =
      (getRequest s rid').map (fun r => if r.id = rid then { r with status := st } else r) :=
  find?_setReqStatus s.requests rid st rid'

theorem getItem_applyWrite_item (s : Store) (iid : Nat) (st : ItemStatus) (iid' : Nat) :
    getItem (applyWrite s (.itemStatus iid st)) iid' =
      (getItem s iid').map (fun it => if it.id = iid then { it with status := st } else it) :=
  find?_setItemStatus s.items iid st iid'

theorem handleActionWrites_approve (s : Store) (rid : Nat) (r : Request)
    (h : getRequest s rid = some r) :
    handleActionWrites s rid .approved =
      [.reqStatus rid .approved, .itemStatus r.itemId .borrowed] := by
  have hid := (getRequest_eq s rid r h).1
  have h2 : getRequest (applyWrite s (.reqStatus rid .approved)) rid =
      some { r with status := ReqStatus.approved } := by
    rw [getRequest_applyWrite_req, h]
    simp [hid]
  unfold handleActionWrites
  rw [if_pos rfl, h2]

theorem handleAction_approve (s : Store) (rid : Nat) (r : Request)
    (h : getRequest s rid = some r) :
    handleAction s rid .approved =
      applyWrite (applyWrite s (.reqStatus rid .approved))
        (.itemStatus r.itemId .borrowed) := by
  unfold handleAction
  rw [handleActionWrites_approve s rid r h]
  rfl

theorem handleActionWrites_decline (s : Store) (rid : Nat) :
    handleActionWrites s rid .declined = [.reqStatus rid .declined] := rfl

theorem handleAction_decline (s : Store) (rid : Nat) :
    handleAction s rid .declined = applyWrite s (.reqStatus rid .declined) := rfl

theorem handleReturn_eq (s : Store) (r : Request) :
    handleReturn s r =
      applyWrite (applyWrite s (.reqStatus r.id .returned))
        (.itemStatus r.itemId .available) := rfl

theorem fwd_refl (a : ReqStatus) : fwd a a := by
  cases a <;> simp [fwd]

theorem fwd_trans (a b c : ReqStatus) : fwd a b → fwd b c → fwd a c := by
  cases a <;> cases b <;> cases c <;> decide

theorem statusOf_eq_some (s : Store) (rid : Nat) (st : ReqStatus)
    (h : statusOf s rid = some st) :
    ∃ r, getRequest s rid = some r ∧ r.status = st := by
  unfold statusOf at h
  cases hfind : getRequest s rid with
  | none => rw [hfind] at h; simp at h
  | some r => rw [hfind] at h; exact ⟨r, rfl, by simpa using h⟩

theorem enabled_approve_elim (s : Store) (rid : Nat)
    (hen : enabled s (.approve rid) = true) :
    ∃ r, getRequest s rid = some r ∧ r.status = .pending := by
  have hen' : (match getRequest s rid with
      | some r => decide (r.status = ReqStatus.pending)
      | none => false) = true := hen
  cases hq : getRequest s rid with
  | none => rw [hq] at hen'; simp at hen'
  | some r => rw [hq] at hen'; exact ⟨r, rfl, by simpa using hen'⟩

theorem enabled_decline_elim (s : Store) (rid : Nat)
    (hen : enabled s (.decline rid) = true) :
    ∃ r, getRequest s rid = some r ∧ r.status = .pending := by
  have hen' : (match getRequest s rid with
      | some r => decide (r.status = ReqStatus.pending)
      | none => false) = true := hen
  cases hq : getRequest s rid with
  | none => rw [hq] at hen'; simp at hen'
  | some r => rw [hq] at hen'; exact ⟨r, rfl, by simpa using hen'⟩

theorem enabled_markReturned_elim (s : Store) (rid : Nat)
    (hen : enabled s (.markReturned rid) = true) :
    ∃ r, getRequest s rid = some r ∧ r.status = .approved := by
  have hen' : (match getRequest s rid with
      | some r => decide (r.status = ReqStatus.approved)
      | none => false) = true := hen
  cases hq : getRequest s rid with
  | none => rw [hq] at hen'; simp at hen'
  | some r => rw [hq] at hen'; exact ⟨r, rfl, by simpa using hen'⟩

theorem applyOp_markReturned (s : Store) (rid : Nat) (r : Request)
    (h : getRequest s rid = some r) :
    applyOp s (.markReturned rid) = handleReturn s r := by
  show (match getRequest s rid with
    | some r => handleReturn s r
    | none => s) = handleReturn s r
  rw [h]

theorem statusOf_applyOp (s : Store) (op : Op) (rid : Nat) (st : ReqStatus)
    (hen : enabled s op = true) (hst : statusOf s rid = some st) :
    ∃ st', statusOf (applyOp s op) rid = some st' ∧ fwd st st' := by
  obtain ⟨r0, hr0, hst0⟩ := statusOf_eq_some s rid st hst
  cases op with
  | share it => exact ⟨st, hst, fwd_refl st⟩
  | request r =>
      refine ⟨st, ?_, fwd_refl st⟩
      have hall : ∀ q ∈ s.requests, q.id ≠ r.id := by
        intro q hq
        unfold enabled at hen
        simp only [Bool.and_eq_true, List.all_eq_true, decide_eq_true_eq] at hen
        exact hen.1.2 q hq
      have hne : ¬((fun q => decide (q.id = rid)) r = true) := by
        simp only [decide_eq_true_eq]
        intro hcontra
        exact hall r0 (getRequest_eq s rid r0 hr0).2
          (by rw [(getRequest_eq s rid r0 hr0).1, ← hcontra])
      have hcons : List.find? (fun q => decide (q.id = rid)) (r :: s.requests) =
          List.find? (fun q => decide (q.id = rid)) s.requests :=
        List.find?_cons_of_neg _ hne
      show (List.find? (fun q => decide (q.id = rid)) (r :: s.requests)).map
        Request.status = some st
      rw [hcons]
      exact hst
  | approve rid' =>
      obtain ⟨rq, hrq, hrqp⟩ := enabled_approve_elim s rid' hen
      refine ⟨if r0.id = rid' then .approved else r0.status, ?_, ?_⟩
      · show statusOf (handleAction s rid' .approved) rid = _
        rw [handleAction_approve s rid' rq hrq]
        show (getRequest (applyWrite s (.reqStatus rid' .approved)) rid).map Request.status = _
        rw [getRequest_applyWrite_req, hr0]
        by_cases hc : r0.id = rid' <;> simp [hc]
      · by_cases hc : r0.id = rid'
        · rw [if_pos hc]
          have heq : rid = rid' := by rw [← (getRequest_eq s rid r0 hr0).1, hc]
          rw [heq] at hr0
          rw [hr0] at hrq
          have : r0 = rq := Option.some.inj hrq
          rw [← hst0, this, hrqp]
          trivial
        · rw [if_neg hc, ← hst0]
          exact fwd_refl _
  | decline rid' =>
      obtain ⟨rq, hrq, hrqp⟩ := enabled_decline_elim s rid' hen
      refine ⟨if r0.id = rid' then .declined else r0.status, ?_, ?_⟩
      · show statusOf (handleAction s rid' .declined) rid = _
        rw [handleAction_decline]
        show (getRequest (applyWrite s (.reqStatus rid' .declined)) rid).map Request.status = _
        rw [getRequest_applyWrite_req, hr0]
        by_cases hc : r0.id = rid' <;> simp [hc]
      · by_cases hc : r0.id = rid'
        · rw [if_pos hc]
          have heq : rid = rid' := by rw [← (getRequest_eq s rid r0 hr0).1, hc]
          rw [heq] at hr0
          rw [hr0] at hrq
          have : r0 = rq := Option.some.inj hrq
          rw [← hst0, this, hrqp]
          trivial
        · rw [if_neg hc, ← hst0]
          exact fwd_refl _
  | markReturned rid' =>
      obtain ⟨rq, hrq, hrqa⟩ := enabled_markReturned_elim s rid' hen
      have hqid := (getRequest_eq s rid' rq hrq).1
      refine ⟨if r0.id = rq.id then .returned else r0.status, ?_, ?_⟩
      · show statusOf (applyOp s (.markReturned rid')) rid = _
        rw [applyOp_markReturned s rid' rq hrq, handleReturn_eq]
        show (getRequest (applyWrite s (.reqStatus rq.id .returned)) rid).map Request.status = _
        rw [getRequest_applyWrite_req, hr0]
        by_cases hc : r0.id = rq.id <;> simp [hc]
      · by_cases hc : r0.id = rq.id
        · rw [if_pos hc]
          have heq : rid = rid' := by rw [← (getRequest_eq s rid r0 hr0).1, hc, hqid]
          rw [heq] at hr0
          rw [hr0] at hrq
          have : r0 = rq := Option.some.inj hrq
          rw [← hst0, this, hrqa]
          exact Or.inr rfl
        · rw [if_neg hc, ← hst0]
          exact fwd_refl _

theorem runOps_cons (s : Store) (op : Op) (ops : List Op) :
    runOps s (op :: ops) =
      if enabled s op then runOps (applyOp s op) ops else none := rfl

theorem runOpsStrict_cons (s : Store) (op : Op) (ops : List Op) :
    runOpsStrict s (op :: ops) =
      if enabledStrict s op then runOpsStrict (applyOp s op) ops else none := rfl

theorem handleAction_approve_parts (s : Store) (rid : Nat) (r : Request)
    (h : getRequest s rid = some r) :
    (handleAction s rid .approved).requests = setReqStatus s.requests rid .approved ∧
    (handleAction s rid .approved).items = setItemStatus s.items r.itemId .borrowed := by
  rw [handleAction_approve s rid r h]
  exact ⟨rfl, rfl⟩

theorem handleAction_decline_parts (s : Store) (rid : Nat) :
    (handleAction s rid .declined).requests = setReqStatus s.requests rid .declined ∧
    (handleAction s rid .declined).items = s.items := ⟨rfl, rfl⟩

theorem handleReturn_parts (s : Store) (r : Request) :
    (handleReturn s r).requests = setReqStatus s.requests r.id .returned ∧
    (handleReturn s r).items = setItemStatus s.items r.itemId .available := ⟨rfl, rfl⟩

theorem enabled_share_elim (s : Store) (it : Item)
    (hen : enabled s (.share it) = true) :
    it.status = .available ∧ ∀ j ∈ s.items, j.id ≠ it.id := by
  have hen' : (decide (it.name ≠ "") && decide (it.description ≠ "") &&
      decide (it.status = ItemStatus.available) &&
      s.items.all (fun j => decide (j.id ≠ it.id))) = true := hen
  simp only [Bool.and_eq_true, List.all_eq_true, decide_eq_true_eq] at hen'
  exact ⟨hen'.1.2, hen'.2⟩

theorem enabled_request_elim (s : Store) (r : Request)
    (hen : enabled s (.request r) = true) :
    r.status = .pending ∧ (∀ q ∈ s.requests, q.id ≠ r.id) ∧
      ∃ it, getItem s r.itemId = some it ∧ it.status = .available := by
  have hen' : ((decide (r.status = ReqStatus.pending) &&
      s.requests.all (fun q => decide (q.id ≠ r.id))) &&
      (match getItem s r.itemId with
       | some it =>
           decide (it.status = ItemStatus.available) &&
             decide (it.ownerId ≠ r.borrowerId) &&
             decide (r.ownerId = it.ownerId) && decide (r.itemName = it.name) &&
             decide (r.itemImageUrl = it.imageUrl.getD "")
       | none => false)) = true := hen
  simp only [Bool.and_eq_true, List.all_eq_true, decide_eq_true_eq] at hen'
  refine ⟨hen'.1.1, hen'.1.2, ?_⟩
  have h2 := hen'.2
  cases hi : getItem s r.itemId with
  | none => rw [hi] at h2; simp at h2
  | some it =>
      rw [hi] at h2
      simp only [Bool.and_eq_true, decide_eq_true_eq] at h2
      exact ⟨it, rfl, h2.1.1.1.1⟩

theorem enabledStrict_to_enabled (s : Store) (op : Op)
    (h : enabledStrict s op = true) : enabled s op = true := by
  simp only [enabledStrict, Bool.and_eq_true] at h
  exact h.1

theorem enabledStrict_approve_elim (s : Store) (rid : Nat)
    (h : enabledStrict s (.approve rid) = true) :
    ∃ r it, getRequest s rid = some r ∧ r.status = .pending ∧
      getItem s r.itemId = some it ∧ it.status = .available := by
  simp only [enabledStrict, Bool.and_eq_true] at h
  obtain ⟨r, hr, hp⟩ := enabled_approve_elim s rid h.1
  have h2 : (match getRequest s rid with
      | some r =>
          (match getItem s r.itemId with
           | some it => decide (it.status = ItemStatus.available)
           | none => false)
      | none => false) = true := h.2
  rw [hr] at h2
  have h3 : (match getItem s r.itemId with
      | some it => decide (it.status = ItemStatus.available)
      | none => false) = true := h2
  cases hi : getItem s r.itemId with
  | none => rw [hi] at h3; simp at h3
  | some it =>
      rw [hi] at h3
      exact ⟨r, it, hr, hp, hi, by simpa using h3⟩

theorem refs_setReqStatus (lr : List Request) (li : List Item)
    (rid : Nat) (st : ReqStatus)
    (h : ∀ r ∈ lr, ∃ it ∈ li, it.id = r.itemId) :
    ∀ r ∈ setReqStatus lr rid st, ∃ it ∈ li, it.id = r.itemId := by
  intro r hr
  simp only [setReqStatus, List.mem_map] at hr
  obtain ⟨r0, hr0, heq⟩ := hr
  obtain ⟨it0, hit0, hid⟩ := h r0 hr0
  refine ⟨it0, hit0, ?_⟩
  have : r.itemId = r0.itemId := by rw [← heq]; split <;> rfl
  rw [this, hid]

theorem refs_setItemStatus (lr : List Request) (li : List Item)
    (iid : Nat) (st : ItemStatus)
    (h : ∀ r ∈ lr, ∃ it ∈ li, it.id = r.itemId) :
    ∀ r ∈ lr, ∃ it ∈ setItemStatus li iid st, it.id = r.itemId := by
  intro r hr
  obtain ⟨it0, hit0, hid⟩ := h r hr
  refine ⟨if it0.id = iid then { it0 with status := st } else it0, ?_, ?_⟩
  · simp only [setItemStatus, List.mem_map]
    exact ⟨it0, hit0, rfl⟩
  · have : (if it0.id = iid then { it0 with status := st } else it0).id = it0.id := by
      split <;> rfl
    rw [this, hid]

theorem countApproved_eq_zero_of_no_ref (l : List Request) (iid : Nat)
    (h : ∀ r ∈ l, r.itemId ≠ iid) : countApproved l iid = 0 := by
  induction l with
  | nil => rfl
  | cons r t ih =>
      rw [countApproved_cons]
      rw [if_neg (by
        intro hc
        exact h r (List.mem_cons_self r t) hc.1)]
      have := ih (fun q hq => h q (List.mem_cons_of_mem r hq))
      omega

theorem good_applyOp (s : Store) (op : Op)
    (hg : good s) (hen : enabledStrict s op = true) : good (applyOp s op) := by
  obtain ⟨ndR, ndI, refs, cnt⟩ := hg
  have henb := enabledStrict_to_enabled s op hen
  cases op with
  | share it =>
      obtain ⟨hav, hfresh⟩ := enabled_share_elim s it henb
      refine ⟨ndR, ?_, ?_, ?_⟩
      · show (List.map Item.id (it :: s.items)).Nodup
        rw [List.map_cons]
        refine List.nodup_cons.2 ⟨?_, ndI⟩
        intro hmem
        obtain ⟨j, hj, hjid⟩ := List.mem_map.1 hmem
        exact hfresh j hj hjid
      · intro r hr
        obtain ⟨it2, h2, h3⟩ := refs r hr
        exact ⟨it2, List.mem_cons_of_mem it h2, h3⟩
      · show ∀ it' ∈ it :: s.items,
          countApproved s.requests it'.id = if it'.status = .borrowed then 1 else 0
        intro it' hit'
        rcases List.mem_cons.1 hit' with rfl | hmem
        · have hz : countApproved s.requests it'.id = 0 := by
            apply countApproved_eq_zero_of_no_ref
            intro r hr hc
            obtain ⟨it2, h2, h3⟩ := refs r hr
            exact hfresh it2 h2 (by rw [h3, hc])
          rw [hz, if_neg (by simp [hav])]
        · exact cnt it' hmem
  | request r =>
      obtain ⟨hpend, hfresh, it1, hit1, hav1⟩ := enabled_request_elim s r henb
      refine ⟨?_, ndI, ?_, ?_⟩
      · show (List.map Request.id (r :: s.requests)).Nodup
        rw [List.map_cons]
        refine List.nodup_cons.2 ⟨?_, ndR⟩
        intro hmem
        obtain ⟨q, hq, hqid⟩ := List.mem_map.1 hmem
        exact hfresh q hq hqid
      · intro q hq
        rcases List.mem_cons.1 hq with rfl | hmem
        · exact ⟨it1, (getItem_eq s q.itemId it1 hit1).2, (getItem_eq s q.itemId it1 hit1).1⟩
        · exact refs q hmem
      · show ∀ it' ∈ s.items,
          countApproved (r :: s.requests) it'.id = if it'.status = .borrowed then 1 else 0
        intro it' hit'
        rw [countApproved_cons, if_neg (by simp [hpend]), ← cnt it' hit']
        omega
  | approve rid =>
      obtain ⟨rq, iti, hrq, hpend, hiti, hitav⟩ := enabledStrict_approve_elim s rid hen
      have parts := handleAction_approve_parts s rid rq hrq
      show good (handleAction s rid .approved)
      refine ⟨?_, ?_, ?_, ?_⟩
      · rw [parts.1, setReqStatus_map_id]; exact ndR
      · rw [parts.2, setItemStatus_map_id]; exact ndI
      · rw [parts.1, parts.2]
        exact refs_setItemStatus _ _ _ _ (refs_setReqStatus _ _ _ _ refs)
      · rw [parts.1, parts.2]
        intro it' hit'
        simp only [setItemStatus, List.mem_map] at hit'
        obtain ⟨it0, hit0, heq⟩ := hit'
        have hid' : it'.id = it0.id := by rw [← heq]; split <;> rfl
        have hcount := countApproved_setReqStatus s.requests rid rq .approved it0.id ndR hrq
        rw [if_neg (by simp [hpend])] at hcount
        by_cases hc : it0.id = rq.itemId
        · rw [if_pos ⟨hc.symm, rfl⟩] at hcount
          have hitmem := getItem_eq s rq.itemId iti hiti
          have hit0i : it0 = iti :=
            List.inj_on_of_nodup_map ndI hit0 hitmem.2 (by rw [hc, hitmem.1])
          have hz : countApproved s.requests it0.id = 0 := by
            rw [cnt it0 hit0, if_neg (by rw [hit0i, hitav]; simp)]
          have hstatus : it'.status = ItemStatus.borrowed := by
            rw [← heq, if_pos hc]
          rw [hid', if_pos hstatus]
          omega
        · rw [if_neg (fun hcontra => hc hcontra.1.symm)] at hcount
          have hit'eq : it' = it0 := by rw [← heq, if_neg hc]
          rw [hit'eq, ← cnt it0 hit0]
          omega
  | decline rid =>
      obtain ⟨rq, hrq, hpend⟩ := enabled_decline_elim s rid henb
      have parts := handleAction_decline_parts s rid
      show good (handleAction s rid .declined)
      refine ⟨?_, ?_, ?_, ?_⟩
      · rw [parts.1, setReqStatus_map_id]; exact ndR
      · rw [parts.2]; exact ndI
      · rw [parts.1, parts.2]
        exact refs_setReqStatus _ _ _ _ refs
      · rw [parts.1, parts.2]
        intro it' hit'
        have hcount := countApproved_setReqStatus s.requests rid rq .declined it'.id ndR hrq
        rw [if_neg (by simp [hpend]), if_neg (by simp)] at hcount
        rw [← cnt it' hit']
        omega
  | markReturned rid =>
      obtain ⟨rq, hrq, happ⟩ := enabled_markReturned_elim s rid henb
      have hqid := (getRequest_eq s rid rq hrq).1
      have happly := applyOp_markReturned s rid rq hrq
      rw [happly]
      have parts := handleReturn_parts s rq
      refine ⟨?_, ?_, ?_, ?_⟩
      · rw [parts.1, setReqStatus_map_id]; exact ndR
      · rw [parts.2, setItemStatus_map_id]; exact ndI
      · rw [parts.1, parts.2]
        exact refs_setItemStatus _ _ _ _ (refs_setReqStatus _ _ _ _ refs)
      · rw [parts.1, parts.2]
        intro it' hit'
        simp only [setItemStatus, List.mem_map] at hit'
        obtain ⟨it0, hit0, heq⟩ := hit'
        have hid' : it'.id = it0.id := by rw [← heq]; split <;> rfl
        have hfind : s.requests.find? (fun q => decide (q.id = rq.id)) = some rq := by
          rw [hqid]; exact hrq
        have hcount := countApproved_setReqStatus s.requests rq.id rq .returned it0.id ndR hfind
        have hz2 : (if rq.itemId = it0.id ∧ ReqStatus.returned = ReqStatus.approved
            then 1 else 0) = 0 := by simp
        rw [hz2] at hcount
        by_cases hc : it0.id = rq.itemId
        · rw [if_pos ⟨hc.symm, happ⟩] at hcount
          have hone : 1 ≤ countApproved s.requests it0.id :=
            countApproved_pos s.requests rq (getRequest_eq s rid rq hrq).2 hc.symm happ
          have hcnt0 := cnt it0 hit0
          have hb : it0.status = ItemStatus.borrowed := by
            by_contra hnb
            rw [hcnt0, if_neg hnb] at hone
            omega
          rw [hcnt0, if_pos hb] at hcount
          have hstatus : it'.status = ItemStatus.available := by
            rw [← heq, if_pos hc]
          rw [hid', if_neg (by rw [hstatus]; simp)]
          omega
        · rw [if_neg (fun hcontra => hc hcontra.1.symm)] at hcount
          have hit'eq : it' = it0 := by rw [← heq, if_neg hc]
          rw [hit'eq, ← cnt it0 hit0]
          omega

theorem good_store0 : good store0 := by
  refine ⟨List.nodup_nil, List.nodup_nil, ?_, ?_⟩
  · intro r hr
    exact absurd hr (List.not_mem_nil r)
  · intro it hit
    exact absurd hit (List.not_mem_nil it)

theorem good_runOpsStrict (ops : List Op) (s s' : Store)
    (hg : good s) (hrun : runOpsStrict s ops = some s') : good s' := by
  induction ops generalizing s with
  | nil =>
      obtain rfl := Option.some.inj hrun
      exact hg
  | cons op ops ih =>
      rw [runOpsStrict_cons] at hrun
      split at hrun
      · rename_i hen
        exact ih (applyOp s op) (good_applyOp s op hg hen) hrun
      · exact Option.noConfusion hrun

/-- C1 counterexample: the operation sequence share drill, request by Alice,
request by Bob, approve Alice, approve Bob is reachable through the client UI
with every write succeeding, yet in the resulting store the borrowed drill
has two approved requests, refuting both the claimed at-least-one iff (with
exactly one) invariant as stated over all reachable states. -/
theorem c1_invariant_counterexample :
    (runOps store0 c1Ops).isSome = true ∧
    ¬ invC1 ((runOps store0 c1Ops).getD store0) ∧
    countApproved ((runOps store0 c1Ops).getD store0).requests drill.id = 2 :=
  ⟨by decide, by decide, by decide⟩

/-- C1 amended: under the additional guard that an owner only approves a
request whose item is still available (the minimal restriction the
counterexample forces; the code itself does not check it), every reachable
state satisfies the invariant: an item is borrowed iff at least one request
referencing it is approved, and a borrowed item has exactly one approved
request. -/
theorem c1_borrowed_iff_uniquely_approved (ops : List Op) (s : Store)
    (hrun : runOpsStrict store0 ops = some s) : invC1 s := by
  obtain ⟨-, -, -, cnt⟩ := good_runOpsStrict ops store0 s good_store0 hrun
  intro it hit
  have hcnt := cnt it hit
  refine ⟨⟨?_, ?_⟩, ?_⟩
  · intro hb
    simp [hcnt, hb]
  · intro h1
    by_contra hnb
    rw [hcnt, if_neg hnb] at h1
    omega
  · intro hb
    rw [hcnt, if_pos hb]

/-- C1 amended witness: a concrete guarded run (share, request, approve)
reaches a state satisfying the invariant. -/
theorem c1_borrowed_iff_uniquely_approved_witness :
    invC1 ((runOpsStrict store0 okOps).getD store0) :=
  c1_borrowed_iff_uniquely_approved okOps ((runOpsStrict store0 okOps).getD store0) (by rfl)

/-- C2: along every sequence of client-invocable operations, each request's
status moves only forward along pending to approved to returned, or pending
to declined; no operation changes the status of a declined or returned
request. -/
theorem c2_status_monotone (ops : List Op) (s s' : Store)
    (hrun : runOps s ops = some s') (rid : Nat) (st st' : ReqStatus)
    (h1 : statusOf s rid = some st) (h2 : statusOf s' rid = some st') :
    fwd st st' := by
  induction ops generalizing s st with
  | nil =>
      obtain rfl := Option.some.inj hrun
      rw [h1] at h2
      obtain rfl := Option.some.inj h2
      exact fwd_refl st
  | cons op ops ih =>
      rw [runOps_cons] at hrun
      split at hrun
      · rename_i hen
        obtain ⟨st1, hst1, hf1⟩ := statusOf_applyOp s op rid st hen h1
        exact fwd_trans st st1 st' hf1 (ih (applyOp s op) hrun st1 hst1)
      · exact Option.noConfusion hrun

/-- C2 witness: approving the pending request in the concrete witness store
moves its status from pending to approved, a forward transition. -/
theorem c2_status_monotone_witness :
    statusOf storeW 1 = some .pending ∧
    statusOf ((runOps storeW [Op.approve 1]).getD store0) 1 = some .approved ∧
    fwd .pending .approved :=
  ⟨by decide, by decide,
    c2_status_monotone [Op.approve 1] storeW
      ((runOps storeW [Op.approve 1]).getD store0) (by rfl) 1 .pending .approved
      (by decide) (by decide)⟩

/-- C3: approving a pending request issues exactly two writes, in order: the
request status to approved, then the status of the item the request
references to borrowed. In the intermediate state where only the first write
has landed, the request is already approved while the item record is
untouched, i.e. still available. After both writes the item is borrowed. -/
theorem c3_approve_write_order (s : Store) (rid : Nat) (r : Request) (it : Item)
    (hr : getRequest s rid = some r) (hp : r.status = .pending)
    (hi : getItem s r.itemId = some it) (hav : it.status = .available) :
    handleActionWrites s rid .approved =
      [Write.reqStatus rid .approved, Write.itemStatus r.itemId .borrowed] ∧
    statusOf (applyWrite s (Write.reqStatus rid .approved)) rid = some .approved ∧
    getItem (applyWrite s (Write.reqStatus rid .approved)) r.itemId = some it ∧
    statusOf (handleAction s rid .approved) rid = some .approved ∧
    (getItem (handleAction s rid .approved) r.itemId).map Item.status =
      some .borrowed := by
  have hid := (getRequest_eq s rid r hr).1
  have hiid := (getItem_eq s r.itemId it hi).1
  have h1 : statusOf (applyWrite s (Write.reqStatus rid .approved)) rid =
      some .approved := by
    unfold statusOf
    rw [getRequest_applyWrite_req, hr]
    simp [hid]
  have h2 : getItem (applyWrite s (Write.reqStatus rid .approved)) r.itemId =
      some it := hi
  refine ⟨handleActionWrites_approve s rid r hr, h1, h2, ?_, ?_⟩
  · rw [handleAction_approve s rid r hr]
    exact h1
  · rw [handleAction_approve s rid r hr, getItem_applyWrite_item, h2]
    simp [hiid]

/-- C3 witness: the concrete witness store with the drill and a pending
request realizes every hypothesis of the approve write-order theorem. -/
theorem c3_approve_write_order_witness :
    handleActionWrites storeW 1 .approved =
      [Write.reqStatus 1 .approved, Write.itemStatus reqAlice.itemId .borrowed] ∧
    statusOf (applyWrite storeW (Write.reqStatus 1 .approved)) 1 = some .approved ∧
    getItem (applyWrite storeW (Write.reqStatus 1 .approved)) reqAlice.itemId =
      some drill ∧
    statusOf (handleAction storeW 1 .approved) 1 = some .approved ∧
    (getItem (handleAction storeW 1 .approved) reqAlice.itemId).map Item.status =
      some .borrowed :=
  c3_approve_write_order storeW 1 reqAlice drill
    (by decide) (by decide) (by decide) (by decide)

/-- C4: the return flow issues exactly two independent writes, in order: the
request status to returned, then the associated item status back to
available. The first write alone leaves the item record untouched, and after
both writes an existing item record is available. -/
theorem c4_return_write_order (s : Store) (req : Request)
    (hr : getRequest s req.id = some req) (ha : req.status = .approved) :
    handleReturnWrites req =
      [Write.reqStatus req.id .returned, Write.itemStatus req.itemId .available] ∧
    statusOf (applyWrite s (Write.reqStatus req.id .returned)) req.id =
      some .returned ∧
    getItem (applyWrite s (Write.reqStatus req.id .returned)) req.itemId =
      getItem s req.itemId ∧
    handleReturn s req =
      applyWrite (applyWrite s (Write.reqStatus req.id .returned))
        (Write.itemStatus req.itemId .available) ∧
    (getItem (handleReturn s req) req.itemId).map Item.status =
      (getItem s req.itemId).map (fun _ => ItemStatus.available) := by
  refine ⟨rfl, ?_, rfl, rfl, ?_⟩
  · unfold statusOf
    rw [getRequest_applyWrite_req, hr]
    simp
  · rw [handleReturn_eq, getItem_applyWrite_item]
    have hsame : getItem (applyWrite s (Write.reqStatus req.id .returned)) req.itemId =
        getItem s req.itemId := rfl
    rw [hsame]
    cases hgi : getItem s req.itemId with
    | none => rfl
    | some it =>
        have := (getItem_eq s req.itemId it hgi).1
        simp [this]

/-- C4 witness: the concrete store with the borrowed drill and its approved
request realizes the hypotheses of the return write-order theorem. -/
theorem c4_return_write_order_witness :
    handleReturnWrites reqAliceApproved =
      [Write.reqStatus reqAliceApproved.id .returned,
        Write.itemStatus reqAliceApproved.itemId .available] ∧
    statusOf (applyWrite storeWB (Write.reqStatus reqAliceApproved.id .returned))
      reqAliceApproved.id = some .returned ∧
    getItem (applyWrite storeWB (Write.reqStatus reqAliceApproved.id .returned))
      reqAliceApproved.itemId = getItem storeWB reqAliceApproved.itemId ∧
    handleReturn storeWB reqAliceApproved =
      applyWrite (applyWrite storeWB (Write.reqStatus reqAliceApproved.id .returned))
        (Write.itemStatus reqAliceApproved.itemId .available) ∧
    (getItem (handleReturn storeWB reqAliceApproved) reqAliceApproved.itemId).map
      Item.status = (getItem storeWB reqAliceApproved.itemId).map
        (fun _ => ItemStatus.available) :=
  c4_return_write_order storeWB reqAliceApproved (by decide) (by decide)

/-- The comparator order of the MyBorrows sort coincides with the ordering
stated by the spec: ascending status precedence, then descending timestamp. -/
theorem borrowsLe_iff (a b : Request) : borrowsLe a b ↔ specOrder a b := by
  unfold borrowsLe compareRequests specOrder
  split <;> omega

/-- C5: the borrow-history sort returns a permutation of its input that is
sorted by the fixed status precedence approved, pending, returned, declined
and, within equal status, by descending request timestamp; in particular the
concrete input with statuses declined, approved, pending, returned renders
as approved, pending, returned, declined. -/
theorem c5_borrow_history_order :
    (∀ l : List Request,
      (sortMyBorrows l).Perm l ∧ (sortMyBorrows l).Sorted specOrder) ∧
    (sortMyBorrows [{ reqAlice with status := .declined, requestedAt := some 400 },
        { reqAlice with id := 2, status := .approved, requestedAt := some 100 },
        { reqAlice with id := 3, status := .pending, requestedAt := some 350 },
        { reqAlice with id := 4, status := .returned, requestedAt := some 50 }]).map
      Request.status = [.approved, .pending, .returned, .declined] := by
  constructor
  · intro l
    refine ⟨List.perm_insertionSort borrowsLe l, ?_⟩
    exact List.Pairwise.imp (fun hab => (borrowsLe_iff _ _).1 hab)
      (List.sorted_insertionSort borrowsLe l)
  · decide

/-- C6: an item is in the Dashboard visible subset exactly when it is in the
raw feed, has status available and is not owned by the viewing user. -/
theorem c6_dashboard_visible (items : List Item) (uid : String) (x : Item) :
    x ∈ visibleItems items uid ↔
      x ∈ items ∧ x.status = .available ∧ x.ownerId ≠ uid := by
  unfold visibleItems
  rw [List.mem_filter]
  simp

/-- C7 (evaluating the code at the failing input): the first sign-in creates
the profile with display name Neighbor- plus the first five characters of the
user id and the default neighborhood; but the second sign-in with the same
identifier finds nothing at the profile path, because addDoc stored the
profile under an auto-generated id inside the collection at that path, and so
creates a second profile instead of reusing the stored one. -/
theorem c7_profile_not_reused :
    (onAuthSignIn [] "alice-uid-123" "autoid-1").created = true ∧
    (onAuthSignIn [] "alice-uid-123" "autoid-1").profile =
      { displayName := "Neighbor-alice", neighborhoodId := "west-boone" } ∧
    (onAuthSignIn (onAuthSignIn [] "alice-uid-123" "autoid-1").store
        "alice-uid-123" "autoid-2").created = true :=
  ⟨by decide, by decide, by decide⟩

/-- C8: with non-empty borrow and return dates the borrow submit creates a
pending request denormalizing the item name, the item image and the owner id
from the item record; the dates are not compared before the write, so a
concrete submit whose return date precedes its borrow date still creates a
record. -/
theorem c8_borrow_submit (item : Item) (uid dname bd rd msg : String)
    (fid now : Nat) (hb : bd ≠ "") (hrd : rd ≠ "") :
    ((borrowSubmit item uid dname bd rd msg fid now).isSome = true ∧
     (borrowSubmit item uid dname bd rd msg fid now).map Request.status =
       some .pending ∧
     (borrowSubmit item uid dname bd rd msg fid now).map Request.itemName =
       some item.name ∧
     (borrowSubmit item uid dname bd rd msg fid now).map Request.itemImageUrl =
       some (item.imageUrl.getD "") ∧
     (borrowSubmit item uid dname bd rd msg fid now).map Request.ownerId =
       some item.ownerId) ∧
    ("2026-10-01".data < "2026-10-12".data ∧
     (borrowSubmit drill "alice" "Alice" "2026-10-12" "2026-10-01" "" 7 0).isSome =
       true) := by
  constructor
  · have hcond : ¬(bd = "" ∨ rd = "") := by simp [hb, hrd]
    unfold borrowSubmit
    rw [if_neg hcond]
    exact ⟨rfl, rfl, rfl, rfl, rfl⟩
  · exact ⟨by decide, by decide⟩

/-- C8 witness: a concrete submit with non-empty dates. -/
theorem c8_borrow_submit_witness :
    ((borrowSubmit drill "alice" "Alice" "2026-02-01" "2026-02-03" "" 9 5).isSome =
       true ∧
     (borrowSubmit drill "alice" "Alice" "2026-02-01" "2026-02-03" "" 9 5).map
       Request.status = some .pending ∧
     (borrowSubmit drill "alice" "Alice" "2026-02-01" "2026-02-03" "" 9 5).map
       Request.itemName = some drill.name ∧
     (borrowSubmit drill "alice" "Alice" "2026-02-01" "2026-02-03" "" 9 5).map
       Request.itemImageUrl = some (drill.imageUrl.getD "") ∧
     (borrowSubmit drill "alice" "Alice" "2026-02-01" "2026-02-03" "" 9 5).map
       Request.ownerId = some drill.ownerId) ∧
    ("2026-10-01".data < "2026-10-12".data ∧
     (borrowSubmit drill "alice" "Alice" "2026-10-12" "2026-10-01" "" 7 0).isSome =
       true) :=
  c8_borrow_submit drill "alice" "Alice" "2026-02-01" "2026-02-03" "" 9 5
    (by decide) (by decide)

/-- C9: declining a request issues exactly one write, which sets that
request's status to declined: the item collection is untouched, every other
request document is untouched, and every field of the declined request other
than its status keeps its value. -/
theorem c9_decline_frame (s : Store) (rid : Nat) (r : Request)
    (hr : getRequest s rid = some r) :
    handleActionWrites s rid .declined = [Write.reqStatus rid .declined] ∧
    (handleAction s rid .declined).items = s.items ∧
    getRequest (handleAction s rid .declined) rid =
      some { r with status := .declined } ∧
    (∀ rid', rid' ≠ rid →
      getRequest (handleAction s rid .declined) rid' = getRequest s rid') := by
  have hid := (getRequest_eq s rid r hr).1
  refine ⟨rfl, rfl, ?_, ?_⟩
  · rw [handleAction_decline]
    show getRequest (applyWrite s (.reqStatus rid .declined)) rid = _
    rw [getRequest_applyWrite_req, hr]
    simp [hid]
  · intro rid' hne
    rw [handleAction_decline]
    show getRequest (applyWrite s (.reqStatus rid .declined)) rid' = _
    rw [getRequest_applyWrite_req]
    cases hg : getRequest s rid' with
    | none => rfl
    | some q =>
        have hq := (getRequest_eq s rid' q hg).1
        simp [hq, hne]

/-- C9 witness: declining the pending request in the concrete witness store
leaves the item list and the absent request id 2 untouched and flips only
the status field of request 1. -/
theorem c9_decline_frame_witness :
    handleActionWrites storeW 1 .declined = [Write.reqStatus 1 .declined] ∧
    (handleAction storeW 1 .declined).items = storeW.items ∧
    getRequest (handleAction storeW 1 .declined) 1 =
      some { reqAlice with status := .declined } ∧
    getRequest (handleAction storeW 1 .declined) 2 = getRequest storeW 2 :=
  ⟨(c9_decline_frame storeW 1 reqAlice (by decide)).1,
   (c9_decline_frame storeW 1 reqAlice (by decide)).2.1,
   (c9_decline_frame storeW 1 reqAlice (by decide)).2.2.1,
   (c9_decline_frame storeW 1 reqAlice (by decide)).2.2.2 2 (by decide)⟩

/-- C10: the Dashboard empty-state message renders exactly when the raw,
unfiltered feed is empty; whenever the raw feed is non-empty the grid of the
filtered subset is rendered even if that subset is empty. -/
theorem c10_empty_state (items : List Item) (uid : String) :
    (renderDashboard items uid = .emptyMessage ↔ items = []) ∧
    (items ≠ [] →
      renderDashboard items uid = .grid (visibleItems items uid)) := by
  unfold renderDashboard
  constructor
  · constructor
    · intro h
      by_cases hl : items.length = 0
      · exact List.length_eq_zero.1 hl
      · rw [if_neg hl] at h
        exact DashboardView.noConfusion h
    · intro h
      subst h
      rfl
  · intro hne
    rw [if_neg (by simpa [List.length_eq_zero] using hne)]

/-- C10 witness: a non-empty feed whose only item is borrowed renders the
grid of an empty visible subset, not the empty-state message. -/
theorem c10_empty_state_witness :
    ([borrowedDrill] : List Item) ≠ [] ∧
    renderDashboard [borrowedDrill] "alice" =
      .grid (visibleItems [borrowedDrill] "alice") ∧
    visibleItems [borrowedDrill] "alice" = [] :=
  ⟨by decide, (c10_empty_state [borrowedDrill] "alice").2 (by decide), by decide⟩

end Neighborhood
